import Mathlib

/-!
Shallow embedding of the `BufferedReader` buffered byte-stream reader
(src/BufferedReader/src/lib.rs).

Modelling conventions:
- bytes are `Nat` (the code never does arithmetic on byte values);
- Rust `usize` fields are `Nat`; the `isize` mark sentinel is `Int`,
  with `-1` meaning "unset";
- the wrapped `Read` source is a state type `σ` together with a step
  function `srcRead s n` that attempts to fill a region of length `n`,
  returning either an error code or the bytes it wrote, plus the new
  source state (mirroring `fn read(&mut self, buf: &mut [u8])`);
- a Rust slice-indexing panic is modelled by `Option` (`none` = panic);
  the only indexing in the code whose bounds are not forced by the
  surrounding `min` computations is `&self.buf[starting_index..ending_index]`
  in `read`, so that is the one guarded spot;
- `usize` subtraction (`self.cap - self.pos`) is `Nat` truncated
  subtraction; under the reader invariant `pos ≤ cap` this agrees with
  Rust.
-/

variable {σ : Type}

/-- The slice `l[a..b]` of a byte list. -/
def listSlice (l : List Nat) (a b : Nat) : List Nat :=
  (l.drop a).take (b - a)

/-- Overwrite `l` starting at offset `off` with the bytes `d`,
leaving everything outside `[off, off + d.length)` unchanged. -/
def writeAt (l : List Nat) (off : Nat) (d : List Nat) : List Nat :=
  l.take off ++ d ++ l.drop (off + d.length)

/-- The wrapped byte source (the `R: Read` type parameter):
`srcRead s n` attempts to fill a caller-provided region of length `n`,
returning the bytes it wrote (or an I/O error code) and its new state. -/
structure ReadSrc (σ : Type) where
  srcRead : σ → Nat → Except Nat (List Nat) × σ

/-- The reader state: `struct BufferedReader<R>` of the Rust source. -/
structure BufferedReader (σ : Type) where
  inner : σ
  buf : List Nat
  pos : Nat
  cap : Nat
  mark : Int
  ahead : Nat
deriving DecidableEq, Repr

/-- Rust constant `pub const DEFAULT_BUF_SIZE: usize = 8196`. -/
def DEFAULT_BUF_SIZE : Nat := 8196

/-- Constructor `BufferedReader::with_capacity`: a zero-filled buffer of the requested
length, `pos = cap = 0`, mark unset (`-1`), `ahead = 0`. -/
def BufferedReader.with_capacity (capacity : Nat) (inner : σ) : BufferedReader σ :=
  { inner := inner
    buf := List.replicate capacity 0
    pos := 0
    cap := 0
    mark := -1
    ahead := 0 }

/-- Constructor `BufferedReader::new`. -/
def BufferedReader.new (inner : σ) : BufferedReader σ :=
  BufferedReader.with_capacity DEFAULT_BUF_SIZE inner

/-- Accessor `BufferedReader::buffer`: the valid unconsumed slice `buf[pos..cap]`. -/
def BufferedReader.buffer (r : BufferedReader σ) : List Nat :=
  listSlice r.buf r.pos r.cap

/-- Reallocation `BufferedReader::resize_buf`: reallocate `buf` to `new_length`
(`to_vec` then `resize_with(new_length, Default::default)`), keeping the
existing bytes and zero-filling any extension. In Rust this returns
`Ok(())` unconditionally. -/
def BufferedReader.resize_buf (r : BufferedReader σ) (new_length : Nat) :
    BufferedReader σ :=
  { r with buf := r.buf.take new_length ++ List.replicate (new_length - r.buf.length) 0 }

/-- Refill operation `BufRead::fill_buf` for `BufferedReader`. The second component is the
propagated I/O error, if any (`fill_buf` uses `?` on the source read, so a
source error escapes; the state mutations made before the failing source
call — in particular the `copy_within` shift of the partial branch —
persist, as they do in Rust). On success:
- full refill (`pos >= cap`): the source writes into the whole `buf`,
  `cap` is set to the returned count, `pos = 0`, mark unset;
- partial refill (`pos < cap`): `buf.copy_within(pos.., 0)` shifts the
  tail down, then the source writes into `buf[cap..]` (note: the Rust
  code really uses `self.cap`, not `cap - pos`, as the write offset),
  `cap += nread`, `pos = 0`, mark unset.
The source physically writes at most the region it is handed (it only
has the slice), while the *count* the reader trusts is the length the
source claims, exactly as in Rust. -/
def BufferedReader.fill_buf (S : ReadSrc σ) (r : BufferedReader σ) :
    BufferedReader σ × Option Nat :=
  if r.pos ≥ r.cap then
    match S.srcRead r.inner r.buf.length with
    | (Except.ok d, s') =>
        ({ r with
            inner := s'
            buf := writeAt r.buf 0 (d.take r.buf.length)
            cap := d.length
            pos := 0
            mark := -1 }, none)
    | (Except.error e, s') => ({ r with inner := s' }, some e)
  else
    let shifted := r.buf.drop r.pos ++ r.buf.drop (r.buf.length - r.pos)
    match S.srcRead r.inner (r.buf.length - r.cap) with
    | (Except.ok d, s') =>
        ({ r with
            inner := s'
            buf := writeAt shifted r.cap (d.take (r.buf.length - r.cap))
            cap := r.cap + d.length
            pos := 0
            mark := -1 }, none)
    | (Except.error e, s') => ({ r with inner := s', buf := shifted }, some e)

/-- Cursor advance `BufRead::consume`: advance `pos` by `amt` clamped to `cap`, then
unset the mark if it is set and the new `pos` exceeds `mark + ahead`. -/
def BufferedReader.consume (r : BufferedReader σ) (amt : Nat) : BufferedReader σ :=
  let pos' := min (r.pos + amt) r.cap
  if r.mark > -1 ∧ pos' > r.mark.toNat + r.ahead then
    { r with pos := pos', mark := -1 }
  else
    { r with pos := pos' }

/-- Read operation `Read::read` for `BufferedReader`. Returns the new reader state, the
target region after the copy, and the returned count — or `none` where
the Rust code would panic on the `&self.buf[starting_index..ending_index]`
slice. The Rust function returns `Ok(min_length)` unconditionally: both
the resize and the opportunistic `fill_buf` are invoked with `let _ =`,
so their errors are swallowed. -/
def BufferedReader.read (S : ReadSrc σ) (r0 : BufferedReader σ)
    (target : List Nat) : Option (BufferedReader σ × List Nat × Nat) :=
  let r1 := if target.length > r0.buf.length
            then r0.resize_buf target.length else r0
  let r2 := if r1.cap - r1.pos < target.length
            then (BufferedReader.fill_buf S r1).1 else r1
  let min_length := min r2.cap target.length
  if r2.pos + min_length ≤ r2.buf.length then
    let source_slice := listSlice r2.buf r2.pos (r2.pos + min_length)
    some (r2.consume min_length, source_slice ++ target.drop min_length, min_length)
  else
    none

/-- Rewind operation `MarkRead::reset`: if a mark is set (`mark >= 0`), rewind `pos` to it;
otherwise do nothing. The Rust function returns `Ok(())` unconditionally
and performs no I/O, so it is modelled as a pure state function. -/
def BufferedReader.reset (r : BufferedReader σ) : BufferedReader σ :=
  if r.mark ≥ 0 then { r with pos := r.mark.toNat } else r

/-- Marking operation `MarkRead::mark`: grow the buffer if `read_limit` exceeds it, fill
once if fewer than `read_limit` unconsumed bytes are buffered, then set
`mark = pos`, `ahead = read_limit`. The Rust function calls `fill_buf`
with `let _ =` and ends with `Ok(())`, so the returned error component is
always `none` — a fill failure is discarded, not propagated.
(Named `MarkRead.mark` after the Rust trait, because `BufferedReader.mark`
is taken by the field projection.) -/
def MarkRead.mark (S : ReadSrc σ) (r0 : BufferedReader σ)
    (read_limit : Nat) : BufferedReader σ × Option Nat :=
  let r1 := if read_limit > r0.buf.length
            then r0.resize_buf read_limit else r0
  let r2 := if r1.cap - r1.pos < read_limit
            then (BufferedReader.fill_buf S r1).1 else r1
  ({ r2 with mark := (r2.pos : Int), ahead := read_limit }, none)

/-- The byte-slice source `impl Read for &[u8]`: a fill copies `min(remaining, region)` bytes
and advances the slice; it never fails. -/
def sliceSrc : ReadSrc (List Nat) :=
  ⟨fun s n => (Except.ok (s.take n), s.drop n)⟩

/-- A source whose every fill attempt fails with I/O error code `e`. -/
def failSrc (e : Nat) : ReadSrc Unit :=
  ⟨fun s _ => (Except.error e, s)⟩

/-- The public operations of the reader, for quantifying over call
sequences. `buffer()` is a pure accessor and leaves the state unchanged. -/
inductive Op where
  | doRead (target : List Nat)
  | doBuffer
  | doFill
  | doConsume (amt : Nat)
  | doMark (limit : Nat)
  | doReset
deriving DecidableEq, Repr

/-- One public call on the reader (`none` = the call panicked). An
erroring `fill_buf` still has a well-defined post-state, which the caller
keeps using, so `doFill` keeps that state. -/
def opStep (S : ReadSrc σ) (r : BufferedReader σ) : Op → Option (BufferedReader σ)
  | Op.doRead t => (BufferedReader.read S r t).map (fun x => x.1)
  | Op.doBuffer => some r
  | Op.doFill => some (BufferedReader.fill_buf S r).1
  | Op.doConsume a => some (r.consume a)
  | Op.doMark l => some (MarkRead.mark S r l).1
  | Op.doReset => some r.reset

/-- Run a sequence of public calls. -/
def runOps (S : ReadSrc σ) : BufferedReader σ → List Op → Option (BufferedReader σ)
  | r, [] => some r
  | r, op :: ops =>
    match opStep S r op with
    | none => none
    | some r' => runOps S r' ops

/-- Run successive `read` calls with fresh zero-initialized targets of the
given sizes, concatenating the bytes each call actually delivered
(the first `count` bytes of the target after the call). -/
def runReads (S : ReadSrc σ) : BufferedReader σ → List Nat → Option (BufferedReader σ × List Nat)
  | r, [] => some (r, [])
  | r, n :: ns =>
    match BufferedReader.read S r (List.replicate n 0) with
    | none => none
    | some (r', t', k) =>
      match runReads S r' ns with
      | none => none
      | some (r'', d) => some (r'', t'.take k ++ d)

/-- The buffer bound invariant of the design, together with the two mark
invariants of reachable states: a set mark records a point no later than
the cursor (`mark <= pos`), and a still-set mark is still valid
(`pos <= mark + ahead`, since `consume` unsets it otherwise). -/
def ReaderInv (r : BufferedReader σ) : Prop :=
  r.pos ≤ r.cap ∧ r.cap ≤ r.buf.length ∧
    (0 ≤ r.mark → r.mark.toNat ≤ r.pos) ∧
    (0 ≤ r.mark → r.pos ≤ r.mark.toNat + r.ahead)

instance (r : BufferedReader σ) : Decidable (ReaderInv r) := by
  unfold ReaderInv; infer_instance

/-- A well-behaved source: it never claims to have written more bytes
than the region it was handed can hold. -/
def SrcBounded (S : ReadSrc σ) : Prop :=
  ∀ s n d s', S.srcRead s n = (Except.ok d, s') → d.length ≤ n

/-- A source that never fails. -/
def SrcTotal (S : ReadSrc σ) : Prop :=
  ∀ s n, ∃ d s', S.srcRead s n = (Except.ok d, s')

theorem sliceSrc_bounded : SrcBounded sliceSrc := by
  intro s n d s' h
  simp only [sliceSrc] at h
  injection h with h1 h2
  injection h1 with h1
  subst h1
  simp only [List.length_take]
  omega

theorem sliceSrc_total : SrcTotal sliceSrc := by
  intro s n
  exact ⟨s.take n, s.drop n, rfl⟩

/-! Basic helper lemmas. -/

theorem writeAt_nil (l : List Nat) (o : Nat) : writeAt l o [] = l := by
  simp [writeAt]

theorem length_writeAt (l : List Nat) (o : Nat) (d : List Nat)
    (h : o + d.length ≤ l.length) : (writeAt l o d).length = l.length := by
  simp only [writeAt, List.length_append, List.length_take, List.length_drop]
  omega

theorem listSlice_append (l : List Nat) (a b c : Nat) (hab : a ≤ b) (hbc : b ≤ c) :
    listSlice l a b ++ listSlice l b c = listSlice l a c := by
  unfold listSlice
  have hc : c - a = (b - a) + (c - b) := by omega
  rw [hc, List.take_add, List.drop_drop]
  have hba : a + (b - a) = b := by omega
  rw [hba]

theorem length_listSlice_le (l : List Nat) (a b : Nat) :
    (listSlice l a b).length ≤ b - a := by
  simp only [listSlice, List.length_take, List.length_drop]
  omega

theorem length_listSlice (l : List Nat) (a b : Nat) (h : b ≤ l.length) :
    (listSlice l a b).length = b - a := by
  simp only [listSlice, List.length_take, List.length_drop]
  omega

/-- C1: the claim says that for every finite byte source and every
sequence of read sizes, the concatenated delivered bytes reproduce the
source exactly. The code violates it: with source `[1,2,3,4,5,6]` and
capacity 2, reads of sizes 1, 3, 3, 3 deliver `[1,2,0,3,4,5,6]` — the
partial refill in `fill_buf` shifts `buf[pos..]` down but then hands the
source `buf[cap..]` instead of `buf[cap-pos..]`, so a stale byte (the `0`)
inside the gap `buf[cap-pos..cap]` is reported as valid data. -/
theorem c1_read_corruption_eval :
    runReads sliceSrc (BufferedReader.with_capacity 2 [1,2,3,4,5,6]) [1,3,3,3]
      = some (⟨[], [4,5,6], 0, 0, -1, 0⟩, [1,2,0,3,4,5,6]) ∧
    [1,2,0,3,4,5,6] ≠ [1,2,3,4,5,6] := by decide

/-- C2: the claim says a partial fill asks the source to write into the
free region starting at `cap - pos` and leaves `buf[pos..cap]` equal to
the old unconsumed bytes followed by the newly read bytes with no stale
gap. The code instead reads into `buf[cap..]`: at the reachable state
below (after one 1-byte read), the unconsumed byte is `[2]` and the
source still holds `[3,4,5,6]`, yet the fill hands the source the empty
region `buf[2..]` (the claim's region `buf[1..]` has length 1) and
afterwards `buffer()` is `[2,2]` — the old byte followed by a stale
duplicate, not `[2]` followed by newly read bytes such as `[3]`. -/
theorem c2_partial_fill_gap_eval :
    BufferedReader.read sliceSrc (BufferedReader.with_capacity 2 [1,2,3,4,5,6]) [0]
      = some (⟨[3,4,5,6], [1,2], 1, 2, -1, 0⟩, [1], 1) ∧
    BufferedReader.fill_buf sliceSrc ⟨[3,4,5,6], [1,2], 1, 2, -1, 0⟩
      = (⟨[3,4,5,6], [2,2], 0, 2, -1, 0⟩, none) ∧
    BufferedReader.buffer (⟨[3,4,5,6], [2,2], 0, 2, -1, 0⟩ : BufferedReader (List Nat))
      = [2,2] ∧
    ([2,2] : List Nat) ≠ [2] ++ [3] := by decide

/-- C4 counterexample: `mark(5)` is called, the subsequent reads consume
3 < 5 bytes (delivering `[1,2,0]`), yet `reset()` does not restore the
cursor: the second read triggered a fill, which unconditionally unset the
mark, so the reset is a no-op and the next read returns 0 bytes instead
of reproducing the 3 bytes delivered between mark and reset. -/
theorem c4_mark_reset_counterexample :
    MarkRead.mark sliceSrc (BufferedReader.with_capacity 8 [1,2]) 5
      = (⟨[], [1,2,0,0,0,0,0,0], 0, 2, 0, 5⟩, none) ∧
    runReads sliceSrc ⟨[], [1,2,0,0,0,0,0,0], 0, 2, 0, 5⟩ [1,2]
      = some (⟨[], [2,0,0,0,0,0,0,0], 2, 2, -1, 5⟩, [1,2,0]) ∧
    ([1,2,0] : List Nat).length < 5 ∧
    BufferedReader.reset (⟨[], [2,0,0,0,0,0,0,0], 2, 2, -1, 5⟩ : BufferedReader (List Nat))
      = ⟨[], [2,0,0,0,0,0,0,0], 2, 2, -1, 5⟩ ∧
    BufferedReader.read sliceSrc ⟨[], [2,0,0,0,0,0,0,0], 2, 2, -1, 5⟩ [0,0,0]
      = some (⟨[], [2,0,0,0,0,0,0,0], 0, 0, -1, 5⟩, [0,0,0], 0) ∧
    (0 : Nat) ≠ ([1,2,0] : List Nat).length := by decide

/-- C5 counterexample: at the reachable state below the mark is set at 0
with `ahead = 2` and `pos = 0`; a `fill_buf` step unsets the mark
(`mark` becomes -1) while leaving `pos = 0`, which is not past
`mark + ahead = 2` — so a step can unset a still-valid mark without
moving `pos` past `mark + ahead`, refuting the claimed "exactly when". -/
theorem c5_mark_unset_counterexample :
    MarkRead.mark sliceSrc (BufferedReader.with_capacity 4 [1,2,3]) 2
      = (⟨[], [1,2,3,0], 0, 3, 0, 2⟩, none) ∧
    BufferedReader.fill_buf sliceSrc ⟨[], [1,2,3,0], 0, 3, 0, 2⟩
      = (⟨[], [1,2,3,0], 0, 3, -1, 2⟩, none) ∧
    ¬ ((0 : Nat) > 0 + 2) := by decide

/-- C6 counterexample: on a fresh capacity-2 reader over a source whose
every fill fails with I/O error 7, `fill_buf` propagates the error
(`some 7`), but `mark(1)` — which must fill, since 0 unconsumed bytes
are buffered — returns no error at all: the Rust code discards the fill
result with `let _ =` and ends with `Ok(())`. The claim that `mark`
propagates the source error unchanged to its caller is false. -/
theorem c6_error_propagation_counterexample :
    BufferedReader.fill_buf (failSrc 7) (BufferedReader.with_capacity 2 ())
      = (⟨(), [0,0], 0, 0, -1, 0⟩, some 7) ∧
    MarkRead.mark (failSrc 7) (BufferedReader.with_capacity 2 ()) 1
      = (⟨(), [0,0], 0, 0, 0, 1⟩, none) := by decide

/-- C8: `reset()` sets `pos` to the mark index when a mark is set and is
a no-op otherwise; it never changes `cap`, `ahead`, the buffer contents,
or the inner source (it performs no source call — it is a pure state
function, and the Rust code returns `Ok(())` unconditionally). -/
theorem c8_reset_frame (r : BufferedReader σ) :
    (r.reset).pos = (if r.mark ≥ 0 then r.mark.toNat else r.pos) ∧
    (r.reset).cap = r.cap ∧
    (r.reset).ahead = r.ahead ∧
    (r.reset).buf = r.buf ∧
    (r.reset).inner = r.inner := by
  unfold BufferedReader.reset
  split_ifs <;> simp

/-- C9: `reset()` leaves the `mark` field itself unchanged, and is
idempotent: resetting twice yields the same state as resetting once. -/
theorem c9_reset_idempotent (r : BufferedReader σ) :
    (r.reset).mark = r.mark ∧ r.reset.reset = r.reset := by
  by_cases h : r.mark ≥ 0
  · simp [BufferedReader.reset, h]
  · simp [BufferedReader.reset, h]

/-! Field and staging lemmas used to reason about the operations. -/

@[simp] theorem resize_buf_inner (r : BufferedReader σ) (n : Nat) :
    (r.resize_buf n).inner = r.inner := rfl

@[simp] theorem resize_buf_pos (r : BufferedReader σ) (n : Nat) :
    (r.resize_buf n).pos = r.pos := rfl

@[simp] theorem resize_buf_cap (r : BufferedReader σ) (n : Nat) :
    (r.resize_buf n).cap = r.cap := rfl

@[simp] theorem resize_buf_mark (r : BufferedReader σ) (n : Nat) :
    (r.resize_buf n).mark = r.mark := rfl

@[simp] theorem resize_buf_ahead (r : BufferedReader σ) (n : Nat) :
    (r.resize_buf n).ahead = r.ahead := rfl

@[simp] theorem resize_buf_len (r : BufferedReader σ) (n : Nat) :
    (r.resize_buf n).buf.length = n := by
  simp only [BufferedReader.resize_buf, List.length_append, List.length_take,
    List.length_replicate]
  omega

theorem fill_full_ok (S : ReadSrc σ) (r : BufferedReader σ) (d : List Nat) (s' : σ)
    (hpc : r.pos ≥ r.cap) (h : S.srcRead r.inner r.buf.length = (Except.ok d, s')) :
    BufferedReader.fill_buf S r =
      ({ r with
          inner := s'
          buf := writeAt r.buf 0 (d.take r.buf.length)
          cap := d.length
          pos := 0
          mark := -1 }, none) := by
  unfold BufferedReader.fill_buf
  rw [if_pos hpc, h]

theorem fill_full_err (S : ReadSrc σ) (r : BufferedReader σ) (e : Nat) (s' : σ)
    (hpc : r.pos ≥ r.cap) (h : S.srcRead r.inner r.buf.length = (Except.error e, s')) :
    BufferedReader.fill_buf S r = ({ r with inner := s' }, some e) := by
  unfold BufferedReader.fill_buf
  rw [if_pos hpc, h]

theorem fill_partial_ok (S : ReadSrc σ) (r : BufferedReader σ) (d : List Nat) (s' : σ)
    (hpc : ¬ r.pos ≥ r.cap)
    (h : S.srcRead r.inner (r.buf.length - r.cap) = (Except.ok d, s')) :
    BufferedReader.fill_buf S r =
      ({ r with
          inner := s'
          buf := writeAt (r.buf.drop r.pos ++ r.buf.drop (r.buf.length - r.pos)) r.cap
                   (d.take (r.buf.length - r.cap))
          cap := r.cap + d.length
          pos := 0
          mark := -1 }, none) := by
  unfold BufferedReader.fill_buf
  rw [if_neg hpc]
  simp only [h]

theorem fill_partial_err (S : ReadSrc σ) (r : BufferedReader σ) (e : Nat) (s' : σ)
    (hpc : ¬ r.pos ≥ r.cap)
    (h : S.srcRead r.inner (r.buf.length - r.cap) = (Except.error e, s')) :
    BufferedReader.fill_buf S r =
      ({ r with inner := s', buf := r.buf.drop r.pos ++ r.buf.drop (r.buf.length - r.pos) },
        some e) := by
  unfold BufferedReader.fill_buf
  rw [if_neg hpc]
  simp only [h]

theorem consume_eq (r : BufferedReader σ) (amt : Nat) :
    r.consume amt =
      if r.mark > -1 ∧ min (r.pos + amt) r.cap > r.mark.toNat + r.ahead
      then { r with pos := min (r.pos + amt) r.cap, mark := -1 }
      else { r with pos := min (r.pos + amt) r.cap } := rfl

/-- Decomposition of `read` through its two intermediate states. -/
theorem read_eq_of (S : ReadSrc σ) (r0 r1 r2 : BufferedReader σ) (t : List Nat)
    (h1 : r1 = (if t.length > r0.buf.length then r0.resize_buf t.length else r0))
    (h2 : r2 = (if r1.cap - r1.pos < t.length
                then (BufferedReader.fill_buf S r1).1 else r1)) :
    BufferedReader.read S r0 t =
      (if r2.pos + min r2.cap t.length ≤ r2.buf.length then
        some (r2.consume (min r2.cap t.length),
              listSlice r2.buf r2.pos (r2.pos + min r2.cap t.length)
                ++ t.drop (min r2.cap t.length),
              min r2.cap t.length)
       else none) := by
  subst h1; subst h2; rfl

/-- Decomposition of `mark` through its two intermediate states. -/
theorem mark_eq_of (S : ReadSrc σ) (r0 r1 r2 : BufferedReader σ) (L : Nat)
    (h1 : r1 = (if L > r0.buf.length then r0.resize_buf L else r0))
    (h2 : r2 = (if r1.cap - r1.pos < L
                then (BufferedReader.fill_buf S r1).1 else r1)) :
    MarkRead.mark S r0 L = ({ r2 with mark := (r2.pos : Int), ahead := L }, none) := by
  subst h1; subst h2; rfl

/-- Helper for C7: once the byte-slice source is exhausted and the buffer
fully consumed, any further `read` returns count 0 and leaves the target
unchanged. -/
theorem read_sliceSrc_eof (r : BufferedReader (List Nat)) (t : List Nat)
    (hin : r.inner = []) (hpc : r.pos = r.cap) (hcl : r.cap ≤ r.buf.length) :
    ∃ r', BufferedReader.read sliceSrc r t = some (r', t, 0) := by
  set r1 := (if t.length > r.buf.length then r.resize_buf t.length else r) with hr1
  have h1pos : r1.pos = r.pos := by rw [hr1]; split <;> simp
  have h1cap : r1.cap = r.cap := by rw [hr1]; split <;> simp
  have h1in : r1.inner = [] := by rw [hr1]; split <;> simp [hin]
  have h1len : r.cap ≤ r1.buf.length := by
    rw [hr1]; split
    · rename_i h; rw [resize_buf_len]; omega
    · exact hcl
  by_cases hfb : r1.cap - r1.pos < t.length
  · have hge : r1.pos ≥ r1.cap := by rw [h1pos, h1cap, hpc]
    have hsrc : sliceSrc.srcRead r1.inner r1.buf.length = (Except.ok [], []) := by
      rw [h1in]; simp [sliceSrc]
    have hR2 : (BufferedReader.fill_buf sliceSrc r1).1
        = { r1 with inner := [], buf := r1.buf, cap := 0, pos := 0, mark := -1 } := by
      rw [fill_full_ok sliceSrc r1 [] [] hge hsrc]
      simp [List.take_nil, writeAt_nil]
    rw [read_eq_of sliceSrc r r1
        ({ r1 with inner := [], buf := r1.buf, cap := 0, pos := 0, mark := -1 }) t hr1
        (by rw [if_pos hfb, hR2])]
    refine ⟨{ r1 with inner := [], buf := r1.buf, cap := 0, pos := 0, mark := -1 }, ?_⟩
    simp [consume_eq, listSlice]
  · have ht : t = [] := List.eq_nil_of_length_eq_zero (by omega)
    subst ht
    rw [read_eq_of sliceSrc r r1 r1 [] hr1 (by rw [if_neg hfb])]
    have hg : r1.pos + min r1.cap ([] : List Nat).length ≤ r1.buf.length := by
      simp only [List.length_nil, Nat.min_zero, Nat.add_zero, h1pos, hpc]
      exact h1len
    rw [if_pos hg]
    refine ⟨r1.consume (min r1.cap ([] : List Nat).length), ?_⟩
    simp [listSlice]

/-- C7: the concrete scenario — source bytes `[5,6,7,0,1,2,3,4]`,
capacity 2: a 3-byte read returns 3 delivering `[5,6,7]` (buffer then
empty), a 2-byte read returns 2 delivering `[0,1]` (buffer `[2]`), a
1-byte read returns 1 delivering `[2]` (buffer empty), a 3-byte read
returns 2 delivering `[3,4]` with the third slot unchanged (buffer
empty), and any further read returns 0 leaving its target unchanged. -/
theorem c7_concrete_trace :
    BufferedReader.read sliceSrc (BufferedReader.with_capacity 2 [5,6,7,0,1,2,3,4]) [0,0,0]
      = some (⟨[0,1,2,3,4], [5,6,7], 3, 3, -1, 0⟩, [5,6,7], 3) ∧
    BufferedReader.buffer (⟨[0,1,2,3,4], [5,6,7], 3, 3, -1, 0⟩ : BufferedReader (List Nat))
      = [] ∧
    BufferedReader.read sliceSrc ⟨[0,1,2,3,4], [5,6,7], 3, 3, -1, 0⟩ [0,0]
      = some (⟨[3,4], [0,1,2], 2, 3, -1, 0⟩, [0,1], 2) ∧
    BufferedReader.buffer (⟨[3,4], [0,1,2], 2, 3, -1, 0⟩ : BufferedReader (List Nat))
      = [2] ∧
    BufferedReader.read sliceSrc ⟨[3,4], [0,1,2], 2, 3, -1, 0⟩ [0]
      = some (⟨[3,4], [0,1,2], 3, 3, -1, 0⟩, [2], 1) ∧
    BufferedReader.buffer (⟨[3,4], [0,1,2], 3, 3, -1, 0⟩ : BufferedReader (List Nat))
      = [] ∧
    BufferedReader.read sliceSrc ⟨[3,4], [0,1,2], 3, 3, -1, 0⟩ [0,0,0]
      = some (⟨[], [3,4,2], 2, 2, -1, 0⟩, [3,4,0], 2) ∧
    BufferedReader.buffer (⟨[], [3,4,2], 2, 2, -1, 0⟩ : BufferedReader (List Nat))
      = [] ∧
    ∀ t : List Nat, ∃ r',
      BufferedReader.read sliceSrc (⟨[], [3,4,2], 2, 2, -1, 0⟩ : BufferedReader (List Nat)) t
        = some (r', t, 0) := by
  refine ⟨by decide, by decide, by decide, by decide, by decide, by decide,
    by decide, by decide, ?_⟩
  intro t
  exact read_sliceSrc_eof ⟨[], [3,4,2], 2, 2, -1, 0⟩ t rfl rfl (by decide)

/-! Invariant preservation lemmas. -/

theorem inv_with_capacity (c : Nat) (s : σ) :
    ReaderInv (BufferedReader.with_capacity c s) := by
  unfold ReaderInv BufferedReader.with_capacity
  dsimp only
  exact ⟨Nat.le_refl 0, Nat.zero_le _, by omega, by omega⟩

theorem inv_resize (r : BufferedReader σ) (hI : ReaderInv r) (n : Nat)
    (hn : r.buf.length < n) : ReaderInv (r.resize_buf n) := by
  obtain ⟨h1, h2, h3, h4⟩ := hI
  unfold ReaderInv
  rw [resize_buf_len, resize_buf_pos, resize_buf_cap, resize_buf_mark, resize_buf_ahead]
  exact ⟨h1, by omega, h3, h4⟩

theorem inv_fill (S : ReadSrc σ) (hB : SrcBounded S) (r : BufferedReader σ)
    (hI : ReaderInv r) :
    ReaderInv (BufferedReader.fill_buf S r).1 ∧
      (BufferedReader.fill_buf S r).1.buf.length = r.buf.length := by
  obtain ⟨h1, h2, h3, h4⟩ := hI
  by_cases hpc : r.pos ≥ r.cap
  · rcases hsc : S.srcRead r.inner r.buf.length with ⟨resp, s'⟩
    cases resp with
    | ok d =>
      rw [fill_full_ok S r d s' hpc hsc]
      have hd : d.length ≤ r.buf.length := hB _ _ _ _ hsc
      have hlen : (writeAt r.buf 0 (d.take r.buf.length)).length = r.buf.length := by
        apply length_writeAt
        simp only [List.length_take, Nat.zero_add]
        omega
      unfold ReaderInv
      dsimp only
      refine ⟨⟨Nat.zero_le _, ?_, by omega, by omega⟩, hlen⟩
      rw [hlen]; exact hd
    | error e =>
      rw [fill_full_err S r e s' hpc hsc]
      exact ⟨⟨h1, h2, h3, h4⟩, rfl⟩
  · rcases hsc : S.srcRead r.inner (r.buf.length - r.cap) with ⟨resp, s'⟩
    cases resp with
    | ok d =>
      rw [fill_partial_ok S r d s' hpc hsc]
      have hd : d.length ≤ r.buf.length - r.cap := hB _ _ _ _ hsc
      have hshift : (r.buf.drop r.pos ++ r.buf.drop (r.buf.length - r.pos)).length
          = r.buf.length := by
        simp only [List.length_append, List.length_drop]
        omega
      have hlen : (writeAt (r.buf.drop r.pos ++ r.buf.drop (r.buf.length - r.pos)) r.cap
          (d.take (r.buf.length - r.cap))).length = r.buf.length := by
        rw [length_writeAt, hshift]
        rw [hshift]
        simp only [List.length_take]
        omega
      unfold ReaderInv
      dsimp only
      refine ⟨⟨Nat.zero_le _, ?_, by omega, by omega⟩, hlen⟩
      rw [hlen]; omega
    | error e =>
      rw [fill_partial_err S r e s' hpc hsc]
      have hshift : (r.buf.drop r.pos ++ r.buf.drop (r.buf.length - r.pos)).length
          = r.buf.length := by
        simp only [List.length_append, List.length_drop]
        omega
      unfold ReaderInv
      dsimp only
      exact ⟨⟨h1, by rw [hshift]; exact h2, h3, h4⟩, hshift⟩

theorem inv_consume (r : BufferedReader σ) (hI : ReaderInv r) (amt : Nat) :
    ReaderInv (r.consume amt) := by
  obtain ⟨h1, h2, h3, h4⟩ := hI
  rw [consume_eq]
  split_ifs with h
  · unfold ReaderInv
    dsimp only
    exact ⟨by omega, h2, by omega, by omega⟩
  · unfold ReaderInv
    dsimp only
    refine ⟨by omega, h2, ?_, ?_⟩
    · intro hm; have := h3 hm; omega
    · intro hm
      rcases not_and_or.mp h with hA | hb
      · exact absurd (by omega : r.mark > -1) hA
      · omega

theorem inv_reset (r : BufferedReader σ) (hI : ReaderInv r) : ReaderInv r.reset := by
  obtain ⟨h1, h2, h3, h4⟩ := hI
  unfold BufferedReader.reset
  split_ifs with h
  · have h5 := h3 h
    unfold ReaderInv
    dsimp only
    exact ⟨by omega, h2, by omega, by omega⟩
  · exact ⟨h1, h2, h3, h4⟩

theorem inv_read (S : ReadSrc σ) (hB : SrcBounded S) (r : BufferedReader σ)
    (hI : ReaderInv r) (t : List Nat) (r' : BufferedReader σ) (t' : List Nat) (k : Nat)
    (h : BufferedReader.read S r t = some (r', t', k)) : ReaderInv r' := by
  set r1 := (if t.length > r.buf.length then r.resize_buf t.length else r) with hr1
  have hI1 : ReaderInv r1 := by
    rw [hr1]; split
    · rename_i hgt; exact inv_resize r hI t.length hgt
    · exact hI
  set r2 := (if r1.cap - r1.pos < t.length
             then (BufferedReader.fill_buf S r1).1 else r1) with hr2
  have hI2 : ReaderInv r2 := by
    rw [hr2]; split
    · exact (inv_fill S hB r1 hI1).1
    · exact hI1
  rw [read_eq_of S r r1 r2 t hr1 hr2] at h
  split_ifs at h with hg
  have hr' : r2.consume (min r2.cap t.length) = r' :=
    congrArg (fun x => x.1) (Option.some.inj h)
  exact hr' ▸ inv_consume r2 hI2 _

theorem inv_mark (S : ReadSrc σ) (hB : SrcBounded S) (r : BufferedReader σ)
    (hI : ReaderInv r) (L : Nat) : ReaderInv (MarkRead.mark S r L).1 := by
  set r1 := (if L > r.buf.length then r.resize_buf L else r) with hr1
  have hI1 : ReaderInv r1 := by
    rw [hr1]; split
    · rename_i hgt; exact inv_resize r hI L hgt
    · exact hI
  set r2 := (if r1.cap - r1.pos < L
             then (BufferedReader.fill_buf S r1).1 else r1) with hr2
  have hI2 : ReaderInv r2 := by
    rw [hr2]; split
    · exact (inv_fill S hB r1 hI1).1
    · exact hI1
  rw [mark_eq_of S r r1 r2 L hr1 hr2]
  obtain ⟨g1, g2, g3, g4⟩ := hI2
  unfold ReaderInv
  dsimp only
  exact ⟨g1, g2, by omega, by omega⟩

theorem inv_opStep (S : ReadSrc σ) (hB : SrcBounded S) (r : BufferedReader σ)
    (hI : ReaderInv r) (op : Op) (r' : BufferedReader σ)
    (h : opStep S r op = some r') : ReaderInv r' := by
  cases op with
  | doRead t =>
    simp only [opStep] at h
    rcases hread : BufferedReader.read S r t with _ | ⟨ra, ta, ka⟩
    · rw [hread] at h; exact absurd h (by simp)
    · rw [hread] at h
      simp only [Option.map_some', Option.some.injEq] at h
      exact h ▸ inv_read S hB r hI t ra ta ka hread
  | doBuffer =>
    simp only [opStep, Option.some.injEq] at h
    exact h ▸ hI
  | doFill =>
    simp only [opStep, Option.some.injEq] at h
    exact h ▸ (inv_fill S hB r hI).1
  | doConsume a =>
    simp only [opStep, Option.some.injEq] at h
    exact h ▸ inv_consume r hI a
  | doMark l =>
    simp only [opStep, Option.some.injEq] at h
    exact h ▸ inv_mark S hB r hI l
  | doReset =>
    simp only [opStep, Option.some.injEq] at h
    exact h ▸ inv_reset r hI

theorem inv_runOps (S : ReadSrc σ) (hB : SrcBounded S) (ops : List Op) :
    ∀ r : BufferedReader σ, ReaderInv r → ∀ r', runOps S r ops = some r' → ReaderInv r' := by
  induction ops with
  | nil =>
    intro r hI r' h
    simp only [runOps, Option.some.injEq] at h
    exact h ▸ hI
  | cons op ops ih =>
    intro r hI r' h
    simp only [runOps] at h
    rcases hst : opStep S r op with _ | ra
    · rw [hst] at h; exact absurd h (by simp)
    · rw [hst] at h
      exact ih ra (inv_opStep S hB r hI op ra hst) r' h

/-- C3: for every sequence of public calls (construction, read, buffer,
fill, consume, mark, reset) against a source that writes at most the
length of the region it is given, the invariant
`0 <= pos <= cap <= buf.length` holds after every call (every
`runOps`-prefix is itself a call sequence, so this covers every
intermediate state; `0 <= pos` is automatic for `Nat`). -/
theorem c3_buffer_bound_invariant (S : ReadSrc σ) (c : Nat) (s : σ) (ops : List Op)
    (r : BufferedReader σ) (hB : SrcBounded S)
    (h : runOps S (BufferedReader.with_capacity c s) ops = some r) :
    r.pos ≤ r.cap ∧ r.cap ≤ r.buf.length := by
  obtain ⟨h1, h2, _, _⟩ := inv_runOps S hB ops _ (inv_with_capacity c s) r h
  exact ⟨h1, h2⟩

/-- Witness for C3 at a concrete source, capacity, and call sequence. -/
theorem c3_buffer_bound_invariant_witness :
    (⟨[], [3, 4, 5], 3, 3, -1, 1⟩ : BufferedReader (List Nat)).pos
        ≤ (⟨[], [3, 4, 5], 3, 3, -1, 1⟩ : BufferedReader (List Nat)).cap ∧
      (⟨[], [3, 4, 5], 3, 3, -1, 1⟩ : BufferedReader (List Nat)).cap
        ≤ (⟨[], [3, 4, 5], 3, 3, -1, 1⟩ : BufferedReader (List Nat)).buf.length :=
  c3_buffer_bound_invariant sliceSrc 2 [1, 2, 3, 4, 5]
    [Op.doRead [0], Op.doMark 1, Op.doBuffer, Op.doConsume 7, Op.doFill, Op.doReset,
      Op.doRead [0, 0, 0]]
    ⟨[], [3, 4, 5], 3, 3, -1, 1⟩ sliceSrc_bounded (by decide)

/-- C10: a read with a zero-length target returns `Ok(0)`, leaves the
whole reader state unchanged (in particular `buf`, `pos`, `cap`, `mark`,
`ahead`, and the inner source, so no fill and no resize happen), and
leaves the (empty) target unchanged. Stated for every reader state
satisfying the reachable-state invariant. -/
theorem c10_zero_read (S : ReadSrc σ) (r : BufferedReader σ) (hI : ReaderInv r) :
    BufferedReader.read S r [] = some (r, [], 0) := by
  obtain ⟨h1, h2, h3, h4⟩ := hI
  rw [read_eq_of S r r r [] (by simp) (by simp)]
  have hmin : min r.cap ([] : List Nat).length = 0 := by simp
  rw [hmin]
  rw [if_pos (by omega)]
  have hcons : r.consume 0 = r := by
    rw [consume_eq]
    rw [if_neg ?hc]
    · have hp : min (r.pos + 0) r.cap = r.pos := by omega
      rw [hp]
    case hc =>
      rintro ⟨hm1, hm2⟩
      have h0m : (0 : Int) ≤ r.mark := by omega
      have := h4 h0m
      omega
  rw [hcons]
  simp [listSlice]

/-- Witness for C10 at a concrete reader. -/
theorem c10_zero_read_witness :
    BufferedReader.read sliceSrc (BufferedReader.with_capacity 2 [9, 9, 9]) []
      = some (BufferedReader.with_capacity 2 [9, 9, 9], [], 0) :=
  c10_zero_read sliceSrc (BufferedReader.with_capacity 2 [9, 9, 9]) (by decide)

/-- A read that is fully served from the buffer (requested length at most
the buffered amount) performs no resize and no fill: it delivers
`buf[pos..pos+len]`, advances `pos` by `len`, and touches the mark only
through the `consume` threshold check. -/
theorem read_noFill (S : ReadSrc σ) (r : BufferedReader σ) (t : List Nat)
    (hI : ReaderInv r) (h : t.length ≤ r.cap - r.pos) :
    BufferedReader.read S r t =
      some (⟨r.inner, r.buf, r.pos + t.length, r.cap,
             (if r.mark > -1 ∧ r.pos + t.length > r.mark.toNat + r.ahead
              then -1 else r.mark),
             r.ahead⟩,
            listSlice r.buf r.pos (r.pos + t.length), t.length) := by
  obtain ⟨h1, h2, h3, h4⟩ := hI
  have hnr : ¬ (t.length > r.buf.length) := by omega
  have hnf : ¬ (r.cap - r.pos < t.length) := by omega
  rw [read_eq_of S r r r t (by rw [if_neg hnr]) (by rw [if_neg hnf])]
  have hmin : min r.cap t.length = t.length := by omega
  rw [hmin]
  rw [if_pos (by omega)]
  have hp : min (r.pos + t.length) r.cap = r.pos + t.length := by omega
  rw [consume_eq, hp, List.drop_length, List.append_nil]
  split_ifs <;> rfl

/-- Successive buffer-served reads of sizes `ns` (total within the
buffered amount) deliver exactly `buf[pos..pos+sum]` and advance `pos`
by the total, with the mark surviving iff the final position stays
within `mark + ahead`. -/
theorem runReads_noFill (S : ReadSrc σ) (ns : List Nat) :
    ∀ r : BufferedReader σ, ReaderInv r → ns.sum ≤ r.cap - r.pos →
    runReads S r ns =
      some (⟨r.inner, r.buf, r.pos + ns.sum, r.cap,
             (if r.mark > -1 ∧ r.pos + ns.sum > r.mark.toNat + r.ahead
              then -1 else r.mark),
             r.ahead⟩,
            listSlice r.buf r.pos (r.pos + ns.sum)) := by
  induction ns with
  | nil =>
    intro r hI hs
    obtain ⟨h1, h2, h3, h4⟩ := hI
    simp only [runReads, List.sum_nil, Nat.add_zero]
    have hcond : ¬ (r.mark > -1 ∧ r.pos > r.mark.toNat + r.ahead) := by
      rintro ⟨hm1, hm2⟩
      have := h4 (by omega)
      omega
    rw [if_neg hcond]
    simp [listSlice]
  | cons n ns ih =>
    intro r hI hs
    obtain ⟨h1, h2, h3, h4⟩ := hI
    have hsum : n + ns.sum ≤ r.cap - r.pos := by simpa using hs
    have hlen : (List.replicate n 0).length ≤ r.cap - r.pos := by
      rw [List.length_replicate]; omega
    simp only [runReads]
    rw [read_noFill S r (List.replicate n 0) ⟨h1, h2, h3, h4⟩ hlen]
    simp only [List.length_replicate]
    set m1 : Int :=
      (if r.mark > -1 ∧ r.pos + n > r.mark.toNat + r.ahead then -1 else r.mark) with hm1
    have hII : ReaderInv (⟨r.inner, r.buf, r.pos + n, r.cap, m1, r.ahead⟩ :
        BufferedReader σ) := by
      unfold ReaderInv
      dsimp only
      refine ⟨by omega, h2, ?_, ?_⟩
      · intro hmk
        rw [hm1] at hmk ⊢
        by_cases hc : (r.mark > -1 ∧ r.pos + n > r.mark.toNat + r.ahead)
        · rw [if_pos hc] at hmk ⊢; omega
        · rw [if_neg hc] at hmk ⊢; have := h3 hmk; omega
      · intro hmk
        rw [hm1] at hmk ⊢
        by_cases hc : (r.mark > -1 ∧ r.pos + n > r.mark.toNat + r.ahead)
        · rw [if_pos hc] at hmk; omega
        · rw [if_neg hc] at hmk ⊢
          rcases not_and_or.mp hc with hA | hB
          · exact absurd (by omega : r.mark > -1) hA
          · omega
    have hb2 : ns.sum ≤
        (⟨r.inner, r.buf, r.pos + n, r.cap, m1, r.ahead⟩ : BufferedReader σ).cap -
        (⟨r.inner, r.buf, r.pos + n, r.cap, m1, r.ahead⟩ : BufferedReader σ).pos := by
      dsimp only; omega
    rw [ih _ hII hb2]
    dsimp only
    have hsl : (listSlice r.buf r.pos (r.pos + n)).take n
        = listSlice r.buf r.pos (r.pos + n) := by
      apply List.take_of_length_le
      have := length_listSlice_le r.buf r.pos (r.pos + n)
      omega
    rw [hsl,
      listSlice_append r.buf r.pos (r.pos + n) (r.pos + n + ns.sum) (by omega) (by omega)]
    have hmk2 : (if m1 > -1 ∧ r.pos + n + ns.sum > m1.toNat + r.ahead then -1 else m1)
        = (if r.mark > -1 ∧ r.pos + (n :: ns).sum > r.mark.toNat + r.ahead
           then -1 else r.mark) := by
      rw [hm1]
      simp only [List.sum_cons]
      split_ifs <;> omega
    have hpe : r.pos + n + ns.sum = r.pos + (n :: ns).sum := by
      simp only [List.sum_cons]; omega
    rw [hmk2, hpe]

/-- After any `mark(L)` call the mark is set at the current position and
`ahead = L`. -/
theorem mark_sets_mark (S : ReadSrc σ) (r : BufferedReader σ) (L : Nat) :
    (MarkRead.mark S r L).1.mark = ((MarkRead.mark S r L).1.pos : Int) ∧
    (MarkRead.mark S r L).1.ahead = L := by
  rw [mark_eq_of S r _ _ L rfl rfl]
  exact ⟨rfl, rfl⟩

/-- C4 (amended): if `mark(L)` is called and then fewer than `L` bytes are
consumed by subsequent reads, none of which triggers a fill (each read is
served from the buffer: the sizes total at most the buffered amount),
then `reset()` restores the read cursor to the marked position, and the
next read reproduces exactly the bytes delivered between the mark call
and the reset call. (The original claim, without the no-fill condition,
is false: a read that triggers a fill unsets the mark even when fewer
than `L` bytes have been consumed — see the counterexample.) -/
theorem c4_mark_reset_roundtrip_amended (S : ReadSrc σ) (r : BufferedReader σ)
    (L : Nat) (ns : List Nat) (hB : SrcBounded S) (hI : ReaderInv r)
    (hsum : ns.sum ≤ (MarkRead.mark S r L).1.cap - (MarkRead.mark S r L).1.pos)
    (hL : ns.sum < L) :
    ∃ r2 rf,
      runReads S (MarkRead.mark S r L).1 ns =
        some (r2, listSlice (MarkRead.mark S r L).1.buf (MarkRead.mark S r L).1.pos
                    ((MarkRead.mark S r L).1.pos + ns.sum)) ∧
      r2.mark = ((MarkRead.mark S r L).1.pos : Int) ∧
      (BufferedReader.reset r2).pos = (MarkRead.mark S r L).1.pos ∧
      BufferedReader.read S (BufferedReader.reset r2) (List.replicate ns.sum 0) =
        some (rf, listSlice (MarkRead.mark S r L).1.buf (MarkRead.mark S r L).1.pos
                    ((MarkRead.mark S r L).1.pos + ns.sum), ns.sum) := by
  obtain ⟨hmm, hma⟩ := mark_sets_mark S r L
  set M := (MarkRead.mark S r L).1 with hMdef
  have hIM : ReaderInv M := inv_mark S hB r hI L
  obtain ⟨g1, g2, g3, g4⟩ := hIM
  have hcond : ¬ (M.mark > -1 ∧ M.pos + ns.sum > M.mark.toNat + M.ahead) := by
    rw [hmm, hma]
    rintro ⟨-, hgt⟩
    have ht : ((M.pos : Int)).toNat = M.pos := rfl
    omega
  have hrun := runReads_noFill S ns M ⟨g1, g2, g3, g4⟩ hsum
  rw [if_neg hcond, hmm] at hrun
  refine ⟨_, ?_, hrun, rfl, ?_, ?_⟩
  · -- the state after the post-reset read
    exact ⟨M.inner, M.buf, M.pos + ns.sum, M.cap,
      (if ((M.pos : Int)) > -1 ∧ M.pos + ns.sum > ((M.pos : Int)).toNat + M.ahead
       then -1 else ((M.pos : Int))), M.ahead⟩
  · -- reset rewinds to the mark
    show (BufferedReader.reset _).pos = M.pos
    unfold BufferedReader.reset
    rw [if_pos (by dsimp only; omega)]
    rfl
  · -- the post-reset read reproduces the delivered bytes
    have hreset : BufferedReader.reset
        (⟨M.inner, M.buf, M.pos + ns.sum, M.cap, ((M.pos : Int)), M.ahead⟩ :
          BufferedReader σ)
        = ⟨M.inner, M.buf, M.pos, M.cap, ((M.pos : Int)), M.ahead⟩ := by
      unfold BufferedReader.reset
      rw [if_pos (by dsimp only; omega)]
      rfl
    rw [hreset]
    have hI3 : ReaderInv (⟨M.inner, M.buf, M.pos, M.cap, ((M.pos : Int)), M.ahead⟩ :
        BufferedReader σ) := by
      unfold ReaderInv
      dsimp only
      refine ⟨g1, g2, ?_, ?_⟩ <;> intro <;> omega
    rw [read_noFill S _ (List.replicate ns.sum 0) hI3
      (by dsimp only; rw [List.length_replicate]; omega)]
    dsimp only
    rw [List.length_replicate]

/-- Witness for the amended C4 at a concrete source, reader, limit, and
read sizes. -/
theorem c4_mark_reset_roundtrip_amended_witness :
    ∃ r2 rf,
      runReads sliceSrc
          (MarkRead.mark sliceSrc (BufferedReader.with_capacity 4 [1, 2, 3]) 2).1 [1] =
        some (r2,
          listSlice (MarkRead.mark sliceSrc (BufferedReader.with_capacity 4 [1, 2, 3]) 2).1.buf
            (MarkRead.mark sliceSrc (BufferedReader.with_capacity 4 [1, 2, 3]) 2).1.pos
            ((MarkRead.mark sliceSrc (BufferedReader.with_capacity 4 [1, 2, 3]) 2).1.pos
              + ([1] : List Nat).sum)) ∧
      r2.mark =
        ((MarkRead.mark sliceSrc (BufferedReader.with_capacity 4 [1, 2, 3]) 2).1.pos : Int) ∧
      (BufferedReader.reset r2).pos =
        (MarkRead.mark sliceSrc (BufferedReader.with_capacity 4 [1, 2, 3]) 2).1.pos ∧
      BufferedReader.read sliceSrc (BufferedReader.reset r2)
          (List.replicate ([1] : List Nat).sum 0) =
        some (rf,
          listSlice (MarkRead.mark sliceSrc (BufferedReader.with_capacity 4 [1, 2, 3]) 2).1.buf
            (MarkRead.mark sliceSrc (BufferedReader.with_capacity 4 [1, 2, 3]) 2).1.pos
            ((MarkRead.mark sliceSrc (BufferedReader.with_capacity 4 [1, 2, 3]) 2).1.pos
              + ([1] : List Nat).sum),
          ([1] : List Nat).sum) :=
  c4_mark_reset_roundtrip_amended sliceSrc (BufferedReader.with_capacity 4 [1, 2, 3]) 2 [1]
    sliceSrc_bounded (by decide) (by decide) (by decide)

/-- A consume on a reader whose mark is already unset leaves it unset. -/
theorem consume_mark_of_neg (r : BufferedReader σ) (amt : Nat) (h : r.mark = -1) :
    (r.consume amt).mark = -1 := by
  rw [consume_eq]
  split_ifs <;> simp [h]

/-- C5 (amended): for a reachable state with a set, still-valid mark, the
exact mark-unsetting discipline is: `consume` unsets the mark iff it
moves `pos` past `mark + ahead`; `reset` never unsets it; any `fill`
(with a succeeding source) *always* unsets it, even though `pos` does
not move past `mark + ahead`; `read` unsets it iff it triggers a fill
(buffered bytes fewer than requested) or its consume step moves `pos`
past `mark + ahead`; and `mark` always leaves a mark set. The original
claim — unset exactly when `pos` advances past `mark + ahead` — is
refuted by the fill case (see the counterexample). -/
theorem c5_mark_unset_amended (S : ReadSrc σ) (r : BufferedReader σ)
    (hB : SrcBounded S) (hT : SrcTotal S) (hI : ReaderInv r) (hm : 0 ≤ r.mark) :
    (∀ amt : Nat, ((r.consume amt).mark = -1 ↔
      r.mark.toNat + r.ahead < min (r.pos + amt) r.cap)) ∧
    (r.reset.mark = r.mark) ∧
    ((BufferedReader.fill_buf S r).1.mark = -1) ∧
    (∀ t : List Nat, ∃ r' t' k, BufferedReader.read S r t = some (r', t', k) ∧
      (r'.mark = -1 ↔
        (r.cap - r.pos < t.length ∨
          r.mark.toNat + r.ahead < r.pos + min r.cap t.length))) ∧
    (∀ L : Nat, 0 ≤ (MarkRead.mark S r L).1.mark) := by
  obtain ⟨h1, h2, h3, h4⟩ := hI
  refine ⟨?_, ?_, ?_, ?_, ?_⟩
  · -- consume
    intro amt
    rw [consume_eq]
    split_ifs with hc
    · exact iff_of_true rfl hc.2
    · refine iff_of_false (by dsimp only; omega) ?_
      rcases not_and_or.mp hc with hA | hb
      · exact absurd (by omega : r.mark > -1) hA
      · exact hb
  · -- reset
    unfold BufferedReader.reset
    split_ifs <;> rfl
  · -- fill always unsets
    by_cases hpc : r.pos ≥ r.cap
    · obtain ⟨d, s', hsc⟩ := hT r.inner r.buf.length
      rw [fill_full_ok S r d s' hpc hsc]
    · obtain ⟨d, s', hsc⟩ := hT r.inner (r.buf.length - r.cap)
      rw [fill_partial_ok S r d s' hpc hsc]
  · -- read
    intro t
    by_cases hnf : r.cap - r.pos < t.length
    · set r1 := (if t.length > r.buf.length then r.resize_buf t.length else r) with hr1
      have hI1 : ReaderInv r1 := by
        rw [hr1]; split
        · rename_i hgt; exact inv_resize r ⟨h1, h2, h3, h4⟩ t.length hgt
        · exact ⟨h1, h2, h3, h4⟩
      obtain ⟨g1, g2, g3, g4⟩ := hI1
      have hnf1 : r1.cap - r1.pos < t.length := by
        have hc : r1.cap = r.cap := by rw [hr1]; split <;> simp
        have hp : r1.pos = r.pos := by rw [hr1]; split <;> simp
        rw [hc, hp]; exact hnf
      by_cases hge : r1.pos ≥ r1.cap
      · obtain ⟨d, s', hsc⟩ := hT r1.inner r1.buf.length
        have hd : d.length ≤ r1.buf.length := hB _ _ _ _ hsc
        have hlen : (writeAt r1.buf 0 (d.take r1.buf.length)).length = r1.buf.length := by
          apply length_writeAt
          simp only [List.length_take, Nat.zero_add]
          omega
        have h2eq := congrArg (fun x => x.1) (fill_full_ok S r1 d s' hge hsc)
        dsimp only at h2eq
        have hmark2 : (BufferedReader.fill_buf S r1).1.mark = -1 := by rw [h2eq]
        have hpos2 : (BufferedReader.fill_buf S r1).1.pos = 0 := by rw [h2eq]
        have hcap2 : (BufferedReader.fill_buf S r1).1.cap = d.length := by rw [h2eq]
        have hlen2 : (BufferedReader.fill_buf S r1).1.buf.length = r1.buf.length := by
          rw [h2eq]; exact hlen
        rw [read_eq_of S r r1 _ t hr1 (by rw [if_pos hnf1])]
        rw [if_pos (by rw [hpos2, hcap2, hlen2]; omega)]
        refine ⟨_, _, _, rfl, ?_⟩
        exact iff_of_true (consume_mark_of_neg _ _ hmark2) (Or.inl hnf)
      · obtain ⟨d, s', hsc⟩ := hT r1.inner (r1.buf.length - r1.cap)
        have hd : d.length ≤ r1.buf.length - r1.cap := hB _ _ _ _ hsc
        have hshift : (r1.buf.drop r1.pos ++ r1.buf.drop (r1.buf.length - r1.pos)).length
            = r1.buf.length := by
          simp only [List.length_append, List.length_drop]
          omega
        have hlen : (writeAt (r1.buf.drop r1.pos ++ r1.buf.drop (r1.buf.length - r1.pos))
            r1.cap (d.take (r1.buf.length - r1.cap))).length = r1.buf.length := by
          rw [length_writeAt, hshift]
          rw [hshift]
          simp only [List.length_take]
          omega
        have h2eq := congrArg (fun x => x.1) (fill_partial_ok S r1 d s' hge hsc)
        dsimp only at h2eq
        have hmark2 : (BufferedReader.fill_buf S r1).1.mark = -1 := by rw [h2eq]
        have hpos2 : (BufferedReader.fill_buf S r1).1.pos = 0 := by rw [h2eq]
        have hcap2 : (BufferedReader.fill_buf S r1).1.cap = r1.cap + d.length := by
          rw [h2eq]
        have hlen2 : (BufferedReader.fill_buf S r1).1.buf.length = r1.buf.length := by
          rw [h2eq]; exact hlen
        rw [read_eq_of S r r1 _ t hr1 (by rw [if_pos hnf1])]
        rw [if_pos (by rw [hpos2, hcap2, hlen2]; omega)]
        refine ⟨_, _, _, rfl, ?_⟩
        exact iff_of_true (consume_mark_of_neg _ _ hmark2) (Or.inl hnf)
    · rw [read_noFill S r t ⟨h1, h2, h3, h4⟩ (by omega)]
      refine ⟨_, _, _, rfl, ?_⟩
      dsimp only
      split_ifs with hc
      · exact iff_of_true rfl (by omega)
      · refine iff_of_false (by omega) ?_
        rcases not_and_or.mp hc with hA | hb
        · exact absurd (by omega : r.mark > -1) hA
        · omega
  · -- mark leaves the mark set
    intro L
    rw [(mark_sets_mark S r L).1]
    omega

/-- Witness for the amended C5: the consume conjunct instantiated at the
reachable marked state from the counterexample trace, with `amt = 1`. -/
theorem c5_mark_unset_amended_witness :
    ((⟨[], [1, 2, 3, 0], 0, 3, 0, 2⟩ : BufferedReader (List Nat)).consume 1).mark = -1 ↔
      ((0 : Int).toNat + 2 < min (0 + 1) 3) :=
  (c5_mark_unset_amended sliceSrc ⟨[], [1, 2, 3, 0], 0, 3, 0, 2⟩ sliceSrc_bounded
    sliceSrc_total (by decide) (by decide)).1 1

/-- C6 (amended): the source's I/O error is propagated unchanged by
`fill_buf` (whichever refill branch runs), but *both* `read` and `mark`
tolerate a failed fill silently: `mark` always returns `Ok` (error
component `none`) even when its opportunistic fill failed, and `read`
returns `Ok` with whatever data was already buffered — illustrated on an
always-failing source with two buffered bytes, where a 3-byte read
returns `Ok(2)` delivering those two bytes. The original claim that
`mark` propagates the error unchanged is refuted by the counterexample. -/
theorem c6_error_propagation_amended (S : ReadSrc σ) (r : BufferedReader σ) :
    (∀ e : Nat,
      (S.srcRead r.inner
          (if r.pos ≥ r.cap then r.buf.length else r.buf.length - r.cap)).1
        = Except.error e →
      (BufferedReader.fill_buf S r).2 = some e) ∧
    (∀ L : Nat, (MarkRead.mark S r L).2 = none) ∧
    (BufferedReader.read (failSrc 7)
        (⟨(), [1, 2, 0, 0], 0, 2, -1, 0⟩ : BufferedReader Unit) [0, 0, 0]
      = some (⟨(), [1, 2, 0, 0], 2, 2, -1, 0⟩, [1, 2, 0], 2)) := by
  refine ⟨?_, ?_, by decide⟩
  · intro e he
    by_cases hpc : r.pos ≥ r.cap
    · rw [if_pos hpc] at he
      rcases hsc : S.srcRead r.inner r.buf.length with ⟨resp, s'⟩
      rw [hsc] at he
      dsimp only at he
      cases resp with
      | ok d => exact absurd he (by simp)
      | error e' =>
        have hee : e' = e := by injection he
        subst hee
        rw [fill_full_err S r e' s' hpc hsc]
    · rw [if_neg hpc] at he
      rcases hsc : S.srcRead r.inner (r.buf.length - r.cap) with ⟨resp, s'⟩
      rw [hsc] at he
      dsimp only at he
      cases resp with
      | ok d => exact absurd he (by simp)
      | error e' =>
        have hee : e' = e := by injection he
        subst hee
        rw [fill_partial_err S r e' s' hpc hsc]
  · intro L
    rw [mark_eq_of S r _ _ L rfl rfl]

/-- Witness for the amended C6: the fill error-propagation conjunct at a
fresh capacity-2 reader over an always-failing source. -/
theorem c6_error_propagation_amended_witness :
    (BufferedReader.fill_buf (failSrc 7) (BufferedReader.with_capacity 2 ())).2 = some 7 :=
  (c6_error_propagation_amended (failSrc 7) (BufferedReader.with_capacity 2 ())).1 7 rfl
